import Mathlib

/-!
Verification of the convex-sql constraint metadata model and runtime
enforcement engine.  The definitions below are a shallow embedding of the
TypeScript sources: the document store is an explicit list of rows, the
asynchronous store primitives become pure state-passing functions, and a
thrown JavaScript exception becomes an explicit error result that carries
the store state at the moment of the throw (JavaScript mutations performed
before a throw are not rolled back).
-/

namespace ConvexSQL

/-- JavaScript values as they occur in documents and constraint checks.
Document ids are abstracted as naturals. -/
inductive JSValue : Type
  | vNull
  | vUndefined
  | vStr (s : String)
  | vNum (n : Int)
  | vBool (b : Bool)
  | vId (id : Nat)
  deriving DecidableEq, Repr

/-- JavaScript falsiness test, as used by the check written in the source as
a bare negation of the field value in validateRelationConstraint
(src/src/runtime/constraints.ts line 116). -/
def JSValue.falsy : JSValue → Bool
  | .vNull => true
  | .vUndefined => true
  | .vStr s => s = ""
  | .vNum n => n = 0
  | .vBool b => !b
  | .vId _ => false

/-- A document is a field-name-to-value association list. -/
abbrev Doc := List (String × JSValue)

/-- Dynamic field access, written data[field] in the source; an absent field
reads as undefined. -/
def getField (d : Doc) (f : String) : JSValue :=
  match d.find? (fun p => p.1 = f) with
  | some p => p.2
  | none => JSValue.vUndefined

/-- Set one field of a document (used to model ctx.db.patch). -/
def setField (d : Doc) (f : String) (v : JSValue) : Doc :=
  (f, v) :: d.filter (fun p => p.1 ≠ f)

/-- A stored row: system id, owning table, and the document fields. -/
structure Row : Type where
  id : Nat
  table : String
  doc : Doc
  deriving DecidableEq, Repr

/-- The document store, ordered by creation time as Convex queries return
rows. -/
abbrev DB := List Row

/-- ctx.db.get: identity lookup; a non-id value resolves to no document. -/
def dbGet (db : DB) (v : JSValue) : Option Row :=
  match v with
  | .vId n => db.find? (fun r => r.id = n)
  | _ => none

/-- ctx.db.insert: append a fresh row. -/
def dbInsert (db : DB) (t : String) (newId : Nat) (d : Doc) : DB :=
  db ++ [⟨newId, t, d⟩]

/-- ctx.db.delete: remove the row with the given id. -/
def dbDelete (db : DB) (i : Nat) : DB :=
  db.filter (fun r => r.id ≠ i)

/-- ctx.db.patch with a single-field patch object. -/
def dbPatch (db : DB) (i : Nat) (f : String) (v : JSValue) : DB :=
  db.map (fun r => if r.id = i then { r with doc := setField r.doc f v } else r)

/-- ctx.db.patch with a general patch object: shallow merge of the patch
fields into the stored document. -/
def dbPatchDoc (db : DB) (i : Nat) (patch : Doc) : DB :=
  db.map (fun r =>
    if r.id = i then { r with doc := patch.foldl (fun d p => setField d p.1 p.2) r.doc }
    else r)

/-- ctx.db.query(table).withIndex(indexName, q.eq(field, value)): the rows of
the table whose field equals the value, in store order.  Resolution of the
index name against the schema is outside this model; the name is carried so
the lookup site stays faithful to the source. -/
def queryEq (db : DB) (t : String) (_indexName : String) (f : String) (v : JSValue) : List Row :=
  db.filter (fun r => r.table = t ∧ getField r.doc f = v)

/-- The .first() terminator of an indexed query. -/
def queryFirst (db : DB) (t : String) (indexName : String) (f : String) (v : JSValue) :
    Option Row :=
  (queryEq db t indexName f v).head?

/-- The onDelete / onUpdate vocabulary (src/src/core/types.ts line 13). -/
inductive DeleteAction : Type
  | cascade
  | restrict
  | setNull
  | setDefault
  deriving DecidableEq, Repr

/-- The constraint variants of src/src/core/types.ts (first variant): unique,
relation, index, notNull and default. -/
inductive Constraint : Type
  | unique (field : String)
  | relation (field : String) (targetTable : String)
      (onDelete : Option DeleteAction) (onUpdate : Option DeleteAction)
  | indexC (fields : List String) (name : String)
  | notNull (field : String)
  | defaultC (field : String) (value : JSValue)
  deriving DecidableEq, Repr

/-- The index name the Table builder synthesizes for a unique constraint
(src/src/core/Table.ts line 287). -/
def builderUniqueIndexName (f : String) : String :=
  "sql_unique_" ++ f ++ "_idx"

/-- The index name the Table builder synthesizes for a relation constraint
(src/src/core/Table.ts line 294). -/
def builderRelIndexName (f : String) : String :=
  "sql_rel_" ++ f ++ "_idx"

/-- The index name the runtime enforcer passes to withIndex for a unique
check (src/src/runtime/constraints.ts line 100): the bare field name. -/
def enforcerUniqueLookupIndex (f : String) : String :=
  f

/-- The index name the runtime enforcer passes to withIndex when collecting
referencing rows on delete (src/src/runtime/constraints.ts line 148). -/
def enforcerRelLookupIndex (f : String) : String :=
  f ++ "_idx"

/-- The ASCII single-quote character used inside the source error strings. -/
def sq : String :=
  (Char.ofNat 39).toString

/-- JavaScript template-literal rendering of a value inside an error
message. -/
def jsToString : JSValue → String
  | .vNull => "null"
  | .vUndefined => "undefined"
  | .vStr s => s
  | .vNum n => toString n
  | .vBool b => toString b
  | .vId n => "id" ++ toString n

/-- Message thrown by validateUniqueConstraint
(src/src/runtime/constraints.ts lines 104-106). -/
def uniqueMsg (f : String) (v : JSValue) (t : String) : String :=
  "Unique constraint violation: " ++ f ++ " " ++ sq ++ jsToString v ++ sq ++
    " already exists in " ++ t

/-- Message thrown by validateRelationConstraint
(src/src/runtime/constraints.ts lines 122-124). -/
def fkMsg (tt : String) (v : JSValue) : String :=
  "Foreign key constraint violation: " ++ tt ++ " with id " ++ sq ++
    jsToString v ++ sq ++ " does not exist"

/-- Message thrown by validateNotNullConstraint
(src/src/runtime/constraints.ts lines 135-137). -/
def notNullMsg (f : String) : String :=
  "Not null constraint violation: " ++ f ++ " cannot be null or undefined"

/-- Message thrown by the restrict (and unset) branches of
handleRelationDelete (src/src/runtime/constraints.ts lines 165-166). -/
def restrictMsg (n : Nat) (sourceTable : String) : String :=
  "Cannot delete: " ++ toString n ++ " related " ++ sourceTable ++
    " record(s) exist"

/-- Message thrown by the setDefault branch of handleRelationDelete
(src/src/runtime/constraints.ts line 178). -/
def setDefaultMsg : String :=
  "setDefault action not yet implemented"

/-- Result of a stateful enforcement step: either success with the new store
state, or a thrown error together with the store state at the throw (writes
already performed are kept, matching the JavaScript semantics). -/
inductive Res (α : Type) : Type
  | ok (db : DB) (a : α)
  | err (db : DB) (msg : String)
  deriving DecidableEq, Repr

/-- ConstraintEnforcer.validateUniqueConstraint
(src/src/runtime/constraints.ts lines 86-108): skip when the value is
undefined, otherwise query the field-named index for an equal value; a match
is a violation unless it is the excluded row itself. -/
def validateUniqueConstraint (db : DB) (t : String) (f : String) (data : Doc)
    (excludeId : Option Nat) : Except String Unit :=
  let value := getField data f
  if value = JSValue.vUndefined then .ok ()
  else
    match queryFirst db t (enforcerUniqueLookupIndex f) f value with
    | some existing =>
      match excludeId with
      | none => .error (uniqueMsg f value t)
      | some ex => if existing.id = ex then .ok () else .error (uniqueMsg f value t)
    | none => .ok ()

/-- ConstraintEnforcer.validateRelationConstraint
(src/src/runtime/constraints.ts lines 110-126): a falsy foreign-key value is
allowed without any lookup; otherwise the referenced row must exist. -/
def validateRelationConstraint (db : DB) (f : String) (tt : String) (data : Doc) :
    Except String Unit :=
  let value := getField data f
  if value.falsy then .ok ()
  else
    match dbGet db value with
    | some _ => .ok ()
    | none => .error (fkMsg tt value)

/-- ConstraintEnforcer.validateNotNullConstraint
(src/src/runtime/constraints.ts lines 128-139). -/
def validateNotNullConstraint (f : String) (data : Doc) : Except String Unit :=
  let value := getField data f
  if value = JSValue.vNull ∨ value = JSValue.vUndefined then .error (notNullMsg f)
  else .ok ()

/-- ConstraintEnforcer.validateConstraint
(src/src/runtime/constraints.ts lines 66-84): dispatch on the constraint
kind; the switch has cases only for unique, relation and notNull, so index
and default constraints validate trivially. -/
def validateConstraint (db : DB) (t : String) (c : Constraint) (data : Doc)
    (excludeId : Option Nat) : Except String Unit :=
  match c with
  | .unique f => validateUniqueConstraint db t f data excludeId
  | .relation f tt _ _ => validateRelationConstraint db f tt data
  | .notNull f => validateNotNullConstraint f data
  | _ => .ok ()

/-- ConstraintEnforcer.validateInsert (src/src/runtime/constraints.ts lines
17-25): validate every constraint in declaration order, aborting on the
first failure. -/
def validateInsert (db : DB) (t : String) (data : Doc) :
    List Constraint → Except String Unit
  | [] => .ok ()
  | c :: cs =>
    match validateConstraint db t c data none with
    | .ok () => validateInsert db t data cs
    | .error m => .error m

/-- ConstraintEnforcer.constraintAffectsFields
(src/src/runtime/constraints.ts lines 188-199). -/
def constraintAffectsFields (c : Constraint) (fields : List String) : Bool :=
  match c with
  | .unique f => fields.contains f
  | .notNull f => fields.contains f
  | .defaultC f _ => fields.contains f
  | .relation f _ _ _ => fields.contains f
  | _ => false

/-- ConstraintEnforcer.validateUpdate (src/src/runtime/constraints.ts lines
30-42): only constraints touching a patched field are validated, with the
updated row's id excluded from unique matches. -/
def validateUpdate (db : DB) (t : String) (i : Nat) (patch : Doc) :
    List Constraint → Except String Unit
  | [] => .ok ()
  | c :: cs =>
    if constraintAffectsFields c (patch.map (fun p => p.1)) then
      match validateConstraint db t c patch (some i) with
      | .ok () => validateUpdate db t i patch cs
      | .error m => .error m
    else validateUpdate db t i patch cs

/-- ConstraintEnforcer.handleRelationDelete
(src/src/runtime/constraints.ts lines 141-186): collect the rows referencing
the deleted id through the relation field, then dispatch on onDelete.
Cascade and setNull mutate the store through the native primitives; restrict,
setDefault and the unset default throw. -/
def handleRelationDelete (db : DB) (sourceTable : String) (f : String)
    (onDelete : Option DeleteAction) (targetId : Nat) : Res Unit :=
  let related := queryEq db sourceTable (enforcerRelLookupIndex f) f (JSValue.vId targetId)
  if related.length = 0 then .ok db ()
  else
    match onDelete with
    | some .cascade => .ok (related.foldl (fun d r => dbDelete d r.id) db) ()
    | some .restrict => .err db (restrictMsg related.length sourceTable)
    | some .setNull =>
        .ok (related.foldl (fun d r => dbPatch d r.id f JSValue.vNull) db) ()
    | some .setDefault => .err db setDefaultMsg
    | none => .err db (restrictMsg related.length sourceTable)

/-- Inner loop of ConstraintEnforcer.handleDelete
(src/src/runtime/constraints.ts lines 54-62): walk one table's constraint
list and run handleRelationDelete on each relation whose targetTable is the
table being deleted from. -/
def handleDeleteCs (t : String) (i : Nat) (src : String) (db : DB) :
    List Constraint → Res Unit
  | [] => .ok db ()
  | c :: cs =>
    match c with
    | .relation f tt od _ =>
      if tt = t then
        match handleRelationDelete db src f od i with
        | .ok db' _ => handleDeleteCs t i src db' cs
        | .err db' m => .err db' m
      else handleDeleteCs t i src db cs
    | _ => handleDeleteCs t i src db cs

/-- ConstraintEnforcer.handleDelete (src/src/runtime/constraints.ts lines
47-64): scan every table's constraint list in order. -/
def handleDelete (t : String) (i : Nat) (db : DB) :
    List (String × List Constraint) → Res Unit
  | [] => .ok db ()
  | entry :: rest =>
    match handleDeleteCs t i entry.1 db entry.2 with
    | .ok db' _ => handleDelete t i db' rest
    | .err db' m => .err db' m

/-- createInsertWithConstraints (src/src/runtime/constraints.ts lines
224-233): validate, then call the native insert. -/
def createInsertWithConstraints (t : String) (cs : List Constraint) (db : DB)
    (data : Doc) (newId : Nat) : Res Nat :=
  match validateInsert db t data cs with
  | .ok () => .ok (dbInsert db t newId data) newId
  | .error m => .err db m

/-- createUpdateWithConstraints (src/src/runtime/constraints.ts lines
238-247): validate, then call the native patch. -/
def createUpdateWithConstraints (t : String) (cs : List Constraint) (db : DB)
    (i : Nat) (patch : Doc) : Res Unit :=
  match validateUpdate db t i patch cs with
  | .ok () => .ok (dbPatchDoc db i patch) ()
  | .error m => .err db m

/-- createDeleteWithConstraints (src/src/runtime/constraints.ts lines
252-261): run the relation walk, then call the native delete on the target
row. -/
def createDeleteWithConstraints (t : String)
    (allTableConstraints : List (String × List Constraint)) (db : DB) (i : Nat) :
    Res Unit :=
  match handleDelete t i db allTableConstraints with
  | .ok db' _ => .ok (dbDelete db' i) ()
  | .err db' m => .err db' m

/-- An index definition accumulated by a table builder: descriptor name and
field list. -/
structure IdxDef : Type where
  name : String
  fields : List String
  deriving DecidableEq, Repr

/-- TableDefinitionWithConstraints.addAutoIndexes of the chained builder
(src/src/core/Table.ts lines 273-305): every unique and relation constraint
appends its derived index unconditionally, in declaration order. -/
def addAutoIndexes (idxs : List IdxDef) : List Constraint → List IdxDef
  | [] => idxs
  | c :: cs =>
    match c with
    | .unique f => addAutoIndexes (idxs ++ [⟨builderUniqueIndexName f, [f]⟩]) cs
    | .relation f _ _ _ => addAutoIndexes (idxs ++ [⟨builderRelIndexName f, [f]⟩]) cs
    | _ => addAutoIndexes idxs cs

/-- Build-time message of TableDefinitionWithConstraints.validateConstraints
(src/src/core/Table.ts lines 320-323): names the offending field and lists
the table's declared fields. -/
def fieldErrMsg (f : String) (tableName : String) (fieldNames : List String) : String :=
  "Constraint field " ++ sq ++ f ++ sq ++ " does not exist in table " ++ sq ++
    tableName ++ sq ++ ". Available fields: " ++ String.intercalate ", " fieldNames

/-- TableDefinitionWithConstraints.validateConstraints
(src/src/core/Table.ts lines 310-330): for unique, notNull, default and
relation constraints the referenced field must be declared; index
constraints fall through the switch unchecked in this variant. -/
def validateConstraints (tableName : String) (fieldNames : List String) :
    List Constraint → Except String Unit
  | [] => .ok ()
  | c :: cs =>
    match c with
    | .unique f =>
      if fieldNames.contains f then validateConstraints tableName fieldNames cs
      else .error (fieldErrMsg f tableName fieldNames)
    | .notNull f =>
      if fieldNames.contains f then validateConstraints tableName fieldNames cs
      else .error (fieldErrMsg f tableName fieldNames)
    | .defaultC f _ =>
      if fieldNames.contains f then validateConstraints tableName fieldNames cs
      else .error (fieldErrMsg f tableName fieldNames)
    | .relation f _ _ _ =>
      if fieldNames.contains f then validateConstraints tableName fieldNames cs
      else .error (fieldErrMsg f tableName fieldNames)
    | .indexC _ _ => validateConstraints tableName fieldNames cs

/-- The result of a successful constraints(...) call: the constraint list is
retained for the enforcer and the auto-index set is merged in. -/
structure BuiltTable : Type where
  constraints : List Constraint
  indexes : List IdxDef
  deriving DecidableEq, Repr

/-- The constraints(...) phase of the builder (src/src/core/Table.ts lines
210-225): validate the field references synchronously, then derive the
auto-index set.  Any error surfaces here, at schema-definition time. -/
def buildTable (tableName : String) (fieldNames : List String) (cs : List Constraint) :
    Except String BuiltTable :=
  match validateConstraints tableName fieldNames cs with
  | .ok () => .ok ⟨cs, addAutoIndexes [] cs⟩
  | .error m => .error m

/-- The constraint vocabulary of the self-tracking builder variant
(the types file shipping with it declares unique, relation and default
only). -/
inductive ConstraintP : Type
  | unique (field : String)
  | relation (field : String) (targetTable : String)
      (onDelete : Option DeleteAction) (onUpdate : Option DeleteAction)
  | defaultC (field : String) (value : JSValue)
  deriving DecidableEq, Repr

/-- The field every constraint of the self-tracking builder carries. -/
def ConstraintP.cField : ConstraintP → String
  | .unique f => f
  | .relation f _ _ _ => f
  | .defaultC f _ => f

/-- addAutoIndexes of the self-tracking builder variant
(src/unnamed/part_011 lines 519-550): a constraint whose derived descriptor
by_field is already present is skipped, otherwise unique and relation
constraints push it; default constraints add nothing. -/
def addAutoIndexesP (idxs : List IdxDef) : List ConstraintP → List IdxDef
  | [] => idxs
  | c :: cs =>
    if (idxs.map (fun i => i.name)).contains ("by_" ++ c.cField) then
      addAutoIndexesP idxs cs
    else
      match c with
      | .unique f => addAutoIndexesP (idxs ++ [⟨"by_" ++ f, [f]⟩]) cs
      | .relation f _ _ _ => addAutoIndexesP (idxs ++ [⟨"by_" ++ f, [f]⟩]) cs
      | .defaultC _ _ => addAutoIndexesP idxs cs

/-- One relation constraint selected by the delete walk: its source table,
referencing field and delete action. -/
structure RelSpec : Type where
  src : String
  field : String
  onDelete : Option DeleteAction
  deriving DecidableEq, Repr

/-- Conversion of one constraint of a source table into a selected relation,
keeping it only when it is a relation whose targetTable is the table being
deleted from. -/
def toRelSpec (t : String) (src : String) : Constraint → Option RelSpec
  | .relation f tt od _ => if tt = t then some ⟨src, f, od⟩ else none
  | _ => none

/-- The relation constraints, across all tables and in declaration order,
whose targetTable equals the table being deleted from. -/
def targetingRelations (t : String) (all : List (String × List Constraint)) :
    List RelSpec :=
  all.flatMap (fun e => e.2.filterMap (toRelSpec t e.1))

/-- Sequential execution of handleRelationDelete over a list of selected
relations, threading the store and stopping at the first throw. -/
def runRels (i : Nat) (db : DB) : List RelSpec → Res Unit
  | [] => .ok db ()
  | r :: rest =>
    match handleRelationDelete db r.src r.field r.onDelete i with
    | .ok db' _ => runRels i db' rest
    | .err db' m => .err db' m

/-- The field a table-builder constraint must have declared, if any: unique,
notNull, default and relation constraints name one field; explicit index
constraints are not checked by this builder variant. -/
def constraintField : Constraint → Option String
  | .unique f => some f
  | .notNull f => some f
  | .defaultC f _ => some f
  | .relation f _ _ _ => some f
  | .indexC _ _ => none

/-- The first constraint field, in declaration order, that is not among the
declared field names. -/
def firstUndeclaredField (fieldNames : List String) : List Constraint → Option String
  | [] => none
  | c :: cs =>
    match constraintField c with
    | some f =>
      if fieldNames.contains f then firstUndeclaredField fieldNames cs
      else some f
    | none => firstUndeclaredField fieldNames cs

/-- Whether a constraint of the self-tracking builder derives an auto-index
(unique and relation constraints do, default constraints do not). -/
def ConstraintP.isAuto : ConstraintP → Bool
  | .unique _ => true
  | .relation _ _ _ _ => true
  | .defaultC _ _ => false

/-- Store for the cascade-chain scenario: one user, one post referencing the
user, one comment referencing the post. -/
def chainDb : DB :=
  [⟨1, "users", []⟩, ⟨2, "posts", [("userId", JSValue.vId 1)]⟩,
   ⟨3, "comments", [("postId", JSValue.vId 2)]⟩]

/-- Cross-table constraint map for the cascade-chain scenario: posts cascade
from users, comments cascade from posts. -/
def chainConstraints : List (String × List Constraint) :=
  [("posts", [Constraint.relation "userId" "users" (some .cascade) none]),
   ("comments", [Constraint.relation "postId" "posts" (some .cascade) none])]

/-- Store for the restrict scenario: one user and one post referencing it. -/
def restrictDb : DB :=
  [⟨1, "users", []⟩, ⟨2, "posts", [("userId", JSValue.vId 1)]⟩]

/-- Constraint map for the restrict scenario. -/
def restrictConstraints : List (String × List Constraint) :=
  [("posts", [Constraint.relation "userId" "users" (some .restrict) none])]

/-- Store for the cascade-before-restrict scenario: one parent and one child
row referencing it through two fields at once. -/
def twoFkDb : DB :=
  [⟨1, "parents", []⟩,
   ⟨2, "children", [("a", JSValue.vId 1), ("b", JSValue.vId 1)]⟩]

/-- Constraint map for the cascade-before-restrict scenario: the child table
declares a cascade relation on field a before a restrict relation on field
b, both targeting the parents table. -/
def twoFkConstraints : List (String × List Constraint) :=
  [("children",
    [Constraint.relation "a" "parents" (some .cascade) none,
     Constraint.relation "b" "parents" (some .restrict) none])]

/-- Store for the cascade-then-restrict walk: one parent, one child row that
a cascade relation will delete, and one blocking row in a second child table
referencing the parent through a restrict relation. -/
def preCascadeDb : DB :=
  [⟨1, "parents", []⟩, ⟨2, "children", [("a", JSValue.vId 1)]⟩,
   ⟨3, "children2", [("b", JSValue.vId 1)]⟩]

/-- Constraint map for the cascade-then-restrict walk: a cascade relation on
the first child table is declared before a restrict relation on the second
child table, both targeting the parents table. -/
def preCascadeConstraints : List (String × List Constraint) :=
  [("children", [Constraint.relation "a" "parents" (some .cascade) none]),
   ("children2", [Constraint.relation "b" "parents" (some .restrict) none])]

/-- Store for the default-constraint scenario: one document already holding
the default slug value. -/
def defaultDb : DB :=
  [⟨1, "docs", [("slug", JSValue.vStr "x")]⟩]

/-- Constraints for the default-constraint scenario: a default on slug
followed by a unique constraint on slug. -/
def defaultCs : List Constraint :=
  [Constraint.defaultC "slug" (JSValue.vStr "x"), Constraint.unique "slug"]

/-- Store for the unique-update scenario: two users with distinct emails. -/
def updDb : DB :=
  [⟨1, "users", [("email", JSValue.vStr "a")]⟩,
   ⟨2, "users", [("email", JSValue.vStr "b")]⟩]

/-- Splitting a sequential relation walk at a list append. -/
theorem runRels_append (i : Nat) (l1 l2 : List RelSpec) : ∀ db : DB,
    runRels i db (l1 ++ l2) =
      match runRels i db l1 with
      | .ok db' _ => runRels i db' l2
      | .err db' m => .err db' m := by
  induction l1 with
  | nil => intro db; rfl
  | cons r rest ih =>
    intro db
    simp only [List.cons_append, runRels]
    cases h : handleRelationDelete db r.src r.field r.onDelete i with
    | ok db' a => simp [h, ih db']
    | err db' m => simp [h]

/-- The inner constraint loop of handleDelete runs handleRelationDelete on
exactly the relations of the scanned table whose targetTable matches. -/
theorem handleDeleteCs_eq_runRels (t : String) (i : Nat) (src : String)
    (cs : List Constraint) : ∀ db : DB,
    handleDeleteCs t i src db cs = runRels i db (cs.filterMap (toRelSpec t src)) := by
  induction cs with
  | nil => intro db; rfl
  | cons c cs ih =>
    intro db
    cases c with
    | relation f tt od ou =>
      by_cases htt : tt = t
      · simp only [handleDeleteCs, List.filterMap_cons, toRelSpec, if_pos htt]
        cases h : handleRelationDelete db src f od i with
        | ok db' a => simp [runRels, h, ih db']
        | err db' m => simp [runRels, h]
      · simp [handleDeleteCs, List.filterMap_cons, toRelSpec, if_neg htt, ih db]
    | unique f => simp [handleDeleteCs, List.filterMap_cons, toRelSpec, ih db]
    | indexC fs n => simp [handleDeleteCs, List.filterMap_cons, toRelSpec, ih db]
    | notNull f => simp [handleDeleteCs, List.filterMap_cons, toRelSpec, ih db]
    | defaultC f v => simp [handleDeleteCs, List.filterMap_cons, toRelSpec, ih db]

/-- handleDelete is the sequential walk over exactly the relation
constraints, across all tables in declaration order, whose targetTable is
the table being deleted from. -/
theorem handleDelete_eq_runRels (t : String) (i : Nat)
    (all : List (String × List Constraint)) : ∀ db : DB,
    handleDelete t i db all = runRels i db (targetingRelations t all) := by
  induction all with
  | nil => intro db; rfl
  | cons e rest ih =>
    intro db
    simp only [handleDelete, targetingRelations, List.flatMap_cons]
    rw [handleDeleteCs_eq_runRels, runRels_append]
    cases h : runRels i db (e.2.filterMap (toRelSpec t e.1)) with
    | ok db' a => simpa [h] using ih db'
    | err db' m => simp [h]

/-- C7: for every delete of a row of table t, handleDelete runs
handleRelationDelete on exactly the relation constraints (across all tables,
in declaration order) whose targetTable equals t, threading the store
through them; when no relation targets t the walk performs no reads, writes
or aborts and returns the store unchanged. -/
theorem handleDelete_evaluates_exactly_targeting_relations :
    ∀ (t : String) (i : Nat) (db : DB) (all : List (String × List Constraint)),
      handleDelete t i db all = runRels i db (targetingRelations t all) ∧
      (targetingRelations t all = [] → handleDelete t i db all = Res.ok db ()) := by
  intro t i db all
  refine ⟨handleDelete_eq_runRels t i all db, fun h => ?_⟩
  rw [handleDelete_eq_runRels t i all db, h]
  rfl

/-- Witness for C7: a relation targeting the posts table is not evaluated
when deleting from the users table, and the store is untouched. -/
theorem handleDelete_evaluates_exactly_targeting_relations_witness :
    targetingRelations "users"
        [("comments", [Constraint.relation "postId" "posts" (some .cascade) none])] = [] ∧
    handleDelete "users" 1 restrictDb
        [("comments", [Constraint.relation "postId" "posts" (some .cascade) none])] =
      Res.ok restrictDb () :=
  ⟨by decide,
    (handleDelete_evaluates_exactly_targeting_relations "users" 1 restrictDb
      [("comments", [Constraint.relation "postId" "posts" (some .cascade) none])]).2
      (by decide)⟩

/-- C3 counterexample: the child row references the parent through the
restrict relation on field b, yet deleting the parent succeeds, because the
cascade relation on field a, declared earlier on the same table, deletes the
blocking row before the restrict relation is evaluated. -/
theorem restrict_bypassed_by_earlier_cascade :
    queryEq twoFkDb "children" (enforcerRelLookupIndex "b") "b" (JSValue.vId 1) ≠ [] ∧
    createDeleteWithConstraints "parents" twoFkConstraints twoFkDb 1 = Res.ok [] () := by
  constructor
  · decide
  · decide

/-- C3 (amended): in any schema and store, whenever the delete walk reaches
a restrict relation targeting the table — every relation declared before it
completed without aborting, producing the intermediate store — and the rows
referencing the deleted id through that relation are still present at that
moment, the whole delete throws the restrict message carrying the count of
blocking rows at that moment, the later relations are never evaluated, and
the native delete primitive is never invoked: the store is returned exactly
as the earlier relations left it, the parent row untouched by this call. -/
theorem restrict_blocks_delete :
    ∀ (t : String) (all : List (String × List Constraint)) (db db' : DB) (i : Nat)
      (src f : String) (pre post : List RelSpec),
      targetingRelations t all = pre ++ RelSpec.mk src f (some .restrict) :: post →
      runRels i db pre = Res.ok db' () →
      queryEq db' src (enforcerRelLookupIndex f) f (JSValue.vId i) ≠ [] →
      createDeleteWithConstraints t all db i =
        Res.err db'
          (restrictMsg (queryEq db' src (enforcerRelLookupIndex f) f (JSValue.vId i)).length
            src) := by
  intro t all db db' i src f pre post h1 h2 h3
  have hlen : (queryEq db' src (enforcerRelLookupIndex f) f (JSValue.vId i)).length ≠ 0 := by
    simpa [List.length_eq_zero] using h3
  unfold createDeleteWithConstraints
  rw [handleDelete_eq_runRels, h1, runRels_append, h2]
  simp only [runRels, handleRelationDelete, if_neg hlen]

/-- Witness for C3 (amended): deleting parent 1 first runs the cascade
relation, which deletes the child row, then reaches the restrict relation
whose blocking row is still present, so the delete fails with the
count-carrying message, the store holds exactly what the cascade left — the
parent row included — and the parent is not deleted. -/
theorem restrict_blocks_delete_witness :
    createDeleteWithConstraints "parents" preCascadeConstraints preCascadeDb 1 =
      Res.err [⟨1, "parents", []⟩, ⟨3, "children2", [("b", JSValue.vId 1)]⟩]
        (restrictMsg 1 "children2") :=
  restrict_blocks_delete "parents" preCascadeConstraints preCascadeDb
    [⟨1, "parents", []⟩, ⟨3, "children2", [("b", JSValue.vId 1)]⟩] 1 "children2" "b"
    [⟨"children", "a", some .cascade⟩] []
    (by decide) (by decide) (by decide)

/-- C2: deleting user 1 deletes its post (the one direct child) and the user
itself, but the comment referencing that post survives: the cascade branch
calls the native delete on each related row instead of re-running the delete
algorithm, so cascades do not compose transitively through the
posts-to-comments relation. -/
theorem cascade_chain_leaves_grandchild :
    createDeleteWithConstraints "users" chainConstraints chainDb 1 =
      Res.ok [⟨3, "comments", [("postId", JSValue.vId 2)]⟩] () ∧
    dbGet [⟨3, "comments", [("postId", JSValue.vId 2)]⟩] (JSValue.vId 3) =
      some ⟨3, "comments", [("postId", JSValue.vId 2)]⟩ ∧
    dbGet [⟨3, "comments", [("postId", JSValue.vId 2)]⟩] (JSValue.vId 1) = none ∧
    dbGet [⟨3, "comments", [("postId", JSValue.vId 2)]⟩] (JSValue.vId 2) = none := by
  refine ⟨by decide, by decide, by decide, by decide⟩

/-- C1: the index names the Table builder synthesizes for unique and
relation constraints never equal the index names the runtime enforcer
recomputes for its unique-check and relation-delete lookups, for any field
name; shown concretely at the field email. -/
theorem auto_index_names_never_match_enforcer_lookup :
    (∀ f : String,
      builderUniqueIndexName f ≠ enforcerUniqueLookupIndex f ∧
      builderRelIndexName f ≠ enforcerRelLookupIndex f) ∧
    builderUniqueIndexName "email" = "sql_unique_email_idx" ∧
    enforcerUniqueLookupIndex "email" = "email" ∧
    builderRelIndexName "email" = "sql_rel_email_idx" ∧
    enforcerRelLookupIndex "email" = "email_idx" := by
  refine ⟨fun f => ⟨?_, ?_⟩, rfl, rfl, rfl, rfl⟩
  · intro h
    have h2 := congrArg String.length h
    have e1 : ("sql_unique_" : String).length = 11 := rfl
    simp [builderUniqueIndexName, enforcerUniqueLookupIndex, String.length_append] at h2
    omega
  · intro h
    have h2 := congrArg String.length h
    have e1 : ("sql_rel_" : String).length = 8 := rfl
    simp [builderRelIndexName, enforcerRelLookupIndex, String.length_append] at h2
    omega

/-- C4: default constraints are never applied on insert: a default
constraint is transparent to the insert wrapper (validateConstraint has no
case for it and the wrapper passes the input document through unchanged),
shown generally and on a concrete store where the defaulted value would have
collided with an existing unique value — the insert succeeds with the field
simply absent, so the default is not subjected to the unique check either. -/
theorem default_constraints_never_applied :
    (∀ (t f : String) (v : JSValue) (rest : List Constraint) (db : DB)
        (data : Doc) (newId : Nat),
      createInsertWithConstraints t (Constraint.defaultC f v :: rest) db data newId =
        createInsertWithConstraints t rest db data newId) ∧
    createInsertWithConstraints "docs" defaultCs defaultDb [] 2 =
      Res.ok [⟨1, "docs", [("slug", JSValue.vStr "x")]⟩, ⟨2, "docs", []⟩] 2 ∧
    getField [] "slug" = JSValue.vUndefined := by
  refine ⟨fun t f v rest db data newId => rfl, by decide, by decide⟩

/-- C9: the wrapped insert and the wrapped update validate first and call
the native write primitive only when every check passes; when a check fails
the wrapper surfaces exactly the validation error and the store state is
unchanged. -/
theorem wrappers_validate_before_writing :
    ∀ (t : String) (cs : List Constraint) (db : DB) (data : Doc) (newId i : Nat)
      (patch : Doc),
      ((validateInsert db t data cs = .ok () ∧
          createInsertWithConstraints t cs db data newId =
            Res.ok (dbInsert db t newId data) newId) ∨
        (∃ m, validateInsert db t data cs = .error m ∧
          createInsertWithConstraints t cs db data newId = Res.err db m)) ∧
      ((validateUpdate db t i patch cs = .ok () ∧
          createUpdateWithConstraints t cs db i patch =
            Res.ok (dbPatchDoc db i patch) ()) ∨
        (∃ m, validateUpdate db t i patch cs = .error m ∧
          createUpdateWithConstraints t cs db i patch = Res.err db m)) := by
  intro t cs db data newId i patch
  constructor
  · cases h : validateInsert db t data cs with
    | ok u =>
      cases u
      exact .inl ⟨rfl, by simp [createInsertWithConstraints, h]⟩
    | error m =>
      exact .inr ⟨m, rfl, by simp [createInsertWithConstraints, h]⟩
  · cases h : validateUpdate db t i patch cs with
    | ok u =>
      cases u
      exact .inl ⟨rfl, by simp [createUpdateWithConstraints, h]⟩
    | error m =>
      exact .inr ⟨m, rfl, by simp [createUpdateWithConstraints, h]⟩

/-- C5: the unique lookup of an update excludes the updated row itself: when
the first index match for the patched value is the updated row the update
validates, and when the first match is any other row it fails with the
unique-violation message. -/
theorem update_unique_excludes_self :
    ∀ (db : DB) (t f : String) (v : JSValue) (i : Nat) (r : Row),
      (queryFirst db t (enforcerUniqueLookupIndex f) f v = some r → r.id = i →
        validateUpdate db t i [(f, v)] [Constraint.unique f] = .ok ()) ∧
      (queryFirst db t (enforcerUniqueLookupIndex f) f v = some r → r.id ≠ i →
        v ≠ JSValue.vUndefined →
        validateUpdate db t i [(f, v)] [Constraint.unique f] =
          .error (uniqueMsg f v t)) := by
  intro db t f v i r
  have hget : getField [(f, v)] f = v := by simp [getField]
  constructor
  · intro hq hid
    by_cases hv : v = JSValue.vUndefined
    · subst hv
      simp [validateUpdate, constraintAffectsFields, validateConstraint,
        validateUniqueConstraint, getField]
    · simp [validateUpdate, constraintAffectsFields, validateConstraint,
        validateUniqueConstraint, hget, hv, hq, hid]
  · intro hq hid hv
    simp [validateUpdate, constraintAffectsFields, validateConstraint,
      validateUniqueConstraint, hget, hv, hq, hid]

/-- Witness for C5: setting user 1's email to its current value validates,
while setting user 2's email to user 1's value fails. -/
theorem update_unique_excludes_self_witness :
    validateUpdate updDb "users" 1 [("email", JSValue.vStr "a")]
        [Constraint.unique "email"] = .ok () ∧
    validateUpdate updDb "users" 2 [("email", JSValue.vStr "a")]
        [Constraint.unique "email"] =
      .error (uniqueMsg "email" (JSValue.vStr "a") "users") :=
  ⟨(update_unique_excludes_self updDb "users" "email" (JSValue.vStr "a") 1
      ⟨1, "users", [("email", JSValue.vStr "a")]⟩).1 (by decide) (by decide),
   (update_unique_excludes_self updDb "users" "email" (JSValue.vStr "a") 2
      ⟨1, "users", [("email", JSValue.vStr "a")]⟩).2 (by decide) (by decide) (by decide)⟩

/-- C10: null, undefined, the empty string, zero and false are all falsy; a
relation constraint whose field value is falsy validates without consulting
the store at all, and the wrapped insert and update both proceed to the
native write. -/
theorem falsy_foreign_key_skipped :
    (JSValue.falsy .vNull = true ∧ JSValue.falsy .vUndefined = true ∧
      JSValue.falsy (.vStr "") = true ∧ JSValue.falsy (.vNum 0) = true ∧
      JSValue.falsy (.vBool false) = true) ∧
    ∀ (db : DB) (f tt t : String) (od ou : Option DeleteAction) (data patch : Doc)
      (newId i : Nat),
      (JSValue.falsy (getField data f) = true →
        validateRelationConstraint db f tt data = .ok () ∧
        createInsertWithConstraints t [Constraint.relation f tt od ou] db data newId =
          Res.ok (dbInsert db t newId data) newId) ∧
      (JSValue.falsy (getField patch f) = true →
        createUpdateWithConstraints t [Constraint.relation f tt od ou] db i patch =
          Res.ok (dbPatchDoc db i patch) ()) := by
  refine ⟨⟨rfl, rfl, rfl, rfl, rfl⟩, ?_⟩
  intro db f tt t od ou data patch newId i
  have hrel : ∀ d : Doc, JSValue.falsy (getField d f) = true →
      validateRelationConstraint db f tt d = .ok () := by
    intro d hd
    simp [validateRelationConstraint, hd]
  constructor
  · intro h
    refine ⟨hrel data h, ?_⟩
    simp [createInsertWithConstraints, validateInsert, validateConstraint, hrel data h]
  · intro h
    by_cases haff :
        constraintAffectsFields (Constraint.relation f tt od ou)
          (patch.map (fun p => p.1)) = true
    · simp [createUpdateWithConstraints, validateUpdate, haff, validateConstraint,
        hrel patch h]
    · simp [createUpdateWithConstraints, validateUpdate, haff]

/-- Witness for C10: a present-but-null foreign key passes relation
validation and the wrapped insert proceeds. -/
theorem falsy_foreign_key_skipped_witness :
    validateRelationConstraint restrictDb "userId" "users"
        [("userId", JSValue.vNull)] = .ok () ∧
    createInsertWithConstraints "posts"
        [Constraint.relation "userId" "users" (some .cascade) none] restrictDb
        [("userId", JSValue.vNull)] 7 =
      Res.ok (dbInsert restrictDb "posts" 7 [("userId", JSValue.vNull)]) 7 :=
  ((falsy_foreign_key_skipped.2 restrictDb "userId" "users" "posts" (some .cascade)
      none [("userId", JSValue.vNull)] [] 7 0).1 (by decide))

/-- The self-tracking auto-index pass only ever appends, so every index name
already present survives it. -/
theorem mem_names_addAutoIndexesP (n : String) (cs : List ConstraintP) :
    ∀ idxs : List IdxDef,
    n ∈ idxs.map (fun ix => ix.name) →
    n ∈ (addAutoIndexesP idxs cs).map (fun ix => ix.name) := by
  induction cs with
  | nil => intro idxs h; exact h
  | cons c cs ih =>
    intro idxs h
    by_cases hc : ((idxs.map fun ix => ix.name).contains ("by_" ++ c.cField)) = true
    · simp only [addAutoIndexesP]
      rw [if_pos hc]
      exact ih idxs h
    · cases c with
      | unique f =>
        simp only [addAutoIndexesP, ConstraintP.cField] at hc ⊢
        rw [if_neg hc]
        exact ih _ (by simp [h])
      | relation f tt od ou =>
        simp only [addAutoIndexesP, ConstraintP.cField] at hc ⊢
        rw [if_neg hc]
        exact ih _ (by simp [h])
      | defaultC f v =>
        simp only [addAutoIndexesP, ConstraintP.cField] at hc ⊢
        rw [if_neg hc]
        exact ih idxs h

/-- After the self-tracking auto-index pass, every unique or relation
constraint of the processed list has its derived name present. -/
theorem auto_name_mem_addAutoIndexesP (cs : List ConstraintP) :
    ∀ (idxs : List IdxDef) (c : ConstraintP),
    c ∈ cs → c.isAuto = true →
    ("by_" ++ c.cField) ∈ (addAutoIndexesP idxs cs).map (fun ix => ix.name) := by
  induction cs with
  | nil => intro idxs c h; cases h
  | cons c0 cs ih =>
    intro idxs c hmem hauto
    rcases List.mem_cons.mp hmem with h | h
    · subst h
      by_cases hc : ((idxs.map fun ix => ix.name).contains ("by_" ++ c.cField)) = true
      · have hin : ("by_" ++ c.cField) ∈ idxs.map (fun ix => ix.name) := by
          simpa [List.elem_iff] using hc
        simp only [addAutoIndexesP]
        rw [if_pos hc]
        exact mem_names_addAutoIndexesP _ cs idxs hin
      · cases c with
        | unique f =>
          simp only [addAutoIndexesP, ConstraintP.cField] at hc ⊢
          rw [if_neg hc]
          exact mem_names_addAutoIndexesP _ cs _ (by simp)
        | relation f tt od ou =>
          simp only [addAutoIndexesP, ConstraintP.cField] at hc ⊢
          rw [if_neg hc]
          exact mem_names_addAutoIndexesP _ cs _ (by simp)
        | defaultC f v => cases hauto
    · by_cases hc : ((idxs.map fun ix => ix.name).contains ("by_" ++ c0.cField)) = true
      · simp only [addAutoIndexesP]
        rw [if_pos hc]
        exact ih idxs c h hauto
      · cases c0 with
        | unique f =>
          simp only [addAutoIndexesP, ConstraintP.cField] at hc ⊢
          rw [if_neg hc]
          exact ih _ c h hauto
        | relation f tt od ou =>
          simp only [addAutoIndexesP, ConstraintP.cField] at hc ⊢
          rw [if_neg hc]
          exact ih _ c h hauto
        | defaultC f v =>
          simp only [addAutoIndexesP, ConstraintP.cField] at hc ⊢
          rw [if_neg hc]
          exact ih idxs c h hauto

/-- When every derivable index name is already present, the self-tracking
auto-index pass changes nothing. -/
theorem addAutoIndexesP_no_new (cs : List ConstraintP) : ∀ idxs : List IdxDef,
    (∀ c ∈ cs, c.isAuto = true → ("by_" ++ c.cField) ∈ idxs.map (fun ix => ix.name)) →
    addAutoIndexesP idxs cs = idxs := by
  induction cs with
  | nil => intro idxs _; rfl
  | cons c cs ih =>
    intro idxs h
    by_cases hc : ((idxs.map fun ix => ix.name).contains ("by_" ++ c.cField)) = true
    · simp only [addAutoIndexesP]
      rw [if_pos hc]
      exact ih idxs (fun c' h' a' => h c' (List.mem_cons_of_mem _ h') a')
    · cases c with
      | unique f =>
        exact absurd (by simpa [List.elem_iff] using h _ (List.mem_cons_self _ _) rfl) hc
      | relation f tt od ou =>
        exact absurd (by simpa [List.elem_iff] using h _ (List.mem_cons_self _ _) rfl) hc
      | defaultC f v =>
        simp only [addAutoIndexesP, ConstraintP.cField] at hc ⊢
        rw [if_neg hc]
        exact ih idxs (fun c' h' a' => h c' (List.mem_cons_of_mem _ h') a')

/-- Re-applying the self-tracking auto-index pass with the same constraint
list is the identity: every synthesis in the second pass is skipped. -/
theorem addAutoIndexesP_idem (idxs : List IdxDef) (cs : List ConstraintP) :
    addAutoIndexesP (addAutoIndexesP idxs cs) cs = addAutoIndexesP idxs cs :=
  addAutoIndexesP_no_new cs _ (fun c hm ha => auto_name_mem_addAutoIndexesP cs idxs c hm ha)

/-- The skip check of the self-tracking auto-index pass keeps the index name
list duplicate-free. -/
theorem nodup_addAutoIndexesP (cs : List ConstraintP) : ∀ idxs : List IdxDef,
    ((idxs.map fun ix => ix.name).Nodup) →
    (((addAutoIndexesP idxs cs).map fun ix => ix.name).Nodup) := by
  induction cs with
  | nil => intro idxs h; exact h
  | cons c cs ih =>
    intro idxs h
    by_cases hc : ((idxs.map fun ix => ix.name).contains ("by_" ++ c.cField)) = true
    · simp only [addAutoIndexesP]
      rw [if_pos hc]
      exact ih idxs h
    · have hnm : ("by_" ++ c.cField) ∉ idxs.map (fun ix => ix.name) := by
        simpa [List.elem_iff] using hc
      cases c with
      | unique f =>
        simp only [addAutoIndexesP, ConstraintP.cField] at hc hnm ⊢
        rw [if_neg hc]
        refine ih _ ?_
        simp [List.nodup_append, h, hnm]
      | relation f tt od ou =>
        simp only [addAutoIndexesP, ConstraintP.cField] at hc hnm ⊢
        rw [if_neg hc]
        refine ih _ ?_
        simp [List.nodup_append, h, hnm]
      | defaultC f v =>
        simp only [addAutoIndexesP, ConstraintP.cField] at hc ⊢
        rw [if_neg hc]
        exact ih idxs h

/-- C6 counterexample: in the chained Table builder, two constraints
deriving the same index name are both synthesized: the second is not
skipped, and the final index list carries a duplicate name. -/
theorem chained_builder_duplicate_names :
    addAutoIndexes [] [Constraint.unique "x", Constraint.unique "x"] =
      [⟨"sql_unique_x_idx", ["x"]⟩, ⟨"sql_unique_x_idx", ["x"]⟩] ∧
    ¬ ((addAutoIndexes [] [Constraint.unique "x", Constraint.unique "x"]).map
        (fun ix => ix.name)).Nodup := by
  exact ⟨by decide, by decide⟩

/-- C6 (amended): in the self-tracking builder variant, a constraint whose
derived index name is already present is skipped as a no-op (first wins,
never an error), so a duplicate-free index name list stays duplicate-free
and re-applying the pass with the identical constraint list is the
identity. -/
theorem auto_index_first_wins_and_idempotent :
    (∀ (idxs : List IdxDef) (cs : List ConstraintP),
      ((idxs.map fun ix => ix.name).Nodup) →
      (((addAutoIndexesP idxs cs).map fun ix => ix.name).Nodup)) ∧
    (∀ (idxs : List IdxDef) (cs : List ConstraintP),
      addAutoIndexesP (addAutoIndexesP idxs cs) cs = addAutoIndexesP idxs cs) :=
  ⟨fun idxs cs h => nodup_addAutoIndexesP cs idxs h,
   fun idxs cs => addAutoIndexesP_idem idxs cs⟩

/-- Witness for C6 (amended): a duplicate-deriving constraint list still
yields duplicate-free index names in the self-tracking builder. -/
theorem auto_index_first_wins_and_idempotent_witness :
    (((addAutoIndexesP []
        [ConstraintP.unique "x", ConstraintP.relation "x" "t" none none,
         ConstraintP.unique "x"]).map fun ix => ix.name).Nodup) :=
  auto_index_first_wins_and_idempotent.1 []
    [ConstraintP.unique "x", ConstraintP.relation "x" "t" none none,
     ConstraintP.unique "x"] (by decide)

/-- The build-time constraint check fails with the message for the first
constraint field (in declaration order) not among the declared fields, and
succeeds when there is none. -/
theorem validateConstraints_eq_firstUndeclared (tn : String) (fns : List String) :
    ∀ cs : List Constraint,
    validateConstraints tn fns cs =
      match firstUndeclaredField fns cs with
      | some bad => .error (fieldErrMsg bad tn fns)
      | none => .ok () := by
  intro cs
  induction cs with
  | nil => rfl
  | cons c cs ih =>
    cases c with
    | unique f =>
      by_cases h : f ∈ fns
      · simpa [validateConstraints, firstUndeclaredField, constraintField, h] using ih
      · simp [validateConstraints, firstUndeclaredField, constraintField, h]
    | notNull f =>
      by_cases h : f ∈ fns
      · simpa [validateConstraints, firstUndeclaredField, constraintField, h] using ih
      · simp [validateConstraints, firstUndeclaredField, constraintField, h]
    | defaultC f v =>
      by_cases h : f ∈ fns
      · simpa [validateConstraints, firstUndeclaredField, constraintField, h] using ih
      · simp [validateConstraints, firstUndeclaredField, constraintField, h]
    | relation f tt od ou =>
      by_cases h : f ∈ fns
      · simpa [validateConstraints, firstUndeclaredField, constraintField, h] using ih
      · simp [validateConstraints, firstUndeclaredField, constraintField, h]
    | indexC fs n =>
      simpa [validateConstraints, firstUndeclaredField, constraintField] using ih

/-- The first undeclared constraint field is indeed not declared. -/
theorem firstUndeclared_not_declared (fns : List String) :
    ∀ (cs : List Constraint) (bad : String),
    firstUndeclaredField fns cs = some bad → fns.contains bad = false := by
  intro cs
  induction cs with
  | nil => intro bad h; simp [firstUndeclaredField] at h
  | cons c cs ih =>
    intro bad h
    cases c with
    | unique f =>
      by_cases hf : f ∈ fns
      · exact ih bad (by simpa [firstUndeclaredField, constraintField, hf] using h)
      · have hb : f = bad := by simpa [firstUndeclaredField, constraintField, hf] using h
        subst hb
        simpa using hf
    | notNull f =>
      by_cases hf : f ∈ fns
      · exact ih bad (by simpa [firstUndeclaredField, constraintField, hf] using h)
      · have hb : f = bad := by simpa [firstUndeclaredField, constraintField, hf] using h
        subst hb
        simpa using hf
    | defaultC f v =>
      by_cases hf : f ∈ fns
      · exact ih bad (by simpa [firstUndeclaredField, constraintField, hf] using h)
      · have hb : f = bad := by simpa [firstUndeclaredField, constraintField, hf] using h
        subst hb
        simpa using hf
    | relation f tt od ou =>
      by_cases hf : f ∈ fns
      · exact ih bad (by simpa [firstUndeclaredField, constraintField, hf] using h)
      · have hb : f = bad := by simpa [firstUndeclaredField, constraintField, hf] using h
        subst hb
        simpa using hf
    | indexC fs n =>
      exact ih bad (by simpa [firstUndeclaredField, constraintField] using h)

/-- C8: constructing a table whose constraint list names an undeclared field
fails synchronously during the build phase with the message naming that
field and listing the declared fields; when every named field is declared
the build succeeds, returning the constraint list and the derived indexes,
so no field-reference error is left for mutation call time. -/
theorem build_time_field_validation :
    ∀ (tn : String) (fns : List String) (cs : List Constraint) (bad : String),
      (firstUndeclaredField fns cs = some bad →
        buildTable tn fns cs = .error (fieldErrMsg bad tn fns) ∧
          fns.contains bad = false) ∧
      (firstUndeclaredField fns cs = none →
        buildTable tn fns cs = .ok ⟨cs, addAutoIndexes [] cs⟩) := by
  intro tn fns cs bad
  constructor
  · intro h
    refine ⟨?_, firstUndeclared_not_declared fns cs bad h⟩
    unfold buildTable
    rw [validateConstraints_eq_firstUndeclared, h]
  · intro h
    unfold buildTable
    rw [validateConstraints_eq_firstUndeclared, h]

/-- Witness for C8: declaring unique on the undeclared field ghost fails at
build time with the message listing ghost and the declared fields. -/
theorem build_time_field_validation_witness :
    buildTable "users" ["email", "name"] [Constraint.unique "ghost"] =
      .error (fieldErrMsg "ghost" "users" ["email", "name"]) ∧
    (["email", "name"] : List String).contains "ghost" = false :=
  (build_time_field_validation "users" ["email", "name"]
    [Constraint.unique "ghost"] "ghost").1 (by decide)

end ConvexSQL
